import Mathlib

/-!
Shallow embedding of the decision-tree chapter of the repository
(entropy, partitioning, ID3 tree induction, classification, forest vote),
together with proofs checking the specification claims against it.

Python floats are modelled as real numbers; Python exceptions are modelled
with an explicit error type and the Except monad.  Python dicts (whose keys
iterate in insertion order) are modelled as insertion-ordered association
lists.  The recursion of build_tree_id3 is expressed with a fuel parameter
that strictly dominates the recursion depth (each recursive call removes
the chosen attribute from the candidate list, so candidate count bounds the
depth); the wrapper build_tree_id3 always supplies sufficient fuel, and the
general theorems quantify over every fuel value.
-/

namespace DSFS

/-- Errors a Python run of this code can raise: KeyError from dict
indexing, IndexError from list indexing, ValueError from min of an empty
sequence.  The recursionError constructor is the out-of-fuel marker of the
embedding; it is unreachable for the fuel the wrapper supplies. -/
inductive PyErr where
  | keyError : PyErr
  | indexError : PyErr
  | valueError : PyErr
  | recursionError : PyErr
deriving DecidableEq, Repr

/-- An attribute mapping: an insertion-ordered association list from
attribute names to categorical string values, modelling the Python dict. -/
abbrev AttrMap := List (String × String)

/-- A labeled example: a pair (attribute mapping, boolean label). -/
abbrev LabeledExample := AttrMap × Bool

/-- The decision-tree representation of the source: True / False leaves, or
a pair of an attribute name and a subtree dict whose keys are observed
string values plus the distinguished None key. -/
inductive Tree where
  | leaf : Bool → Tree
  | node : String → List (Option String × Tree) → Tree
deriving Repr

/-- Count of true-labeled examples, as computed inside build_tree_id3. -/
def num_trues (inputs : List LabeledExample) : Nat :=
  (inputs.filter (fun p => p.2)).length

/-- Count of false-labeled examples: num_inputs - num_trues. -/
def num_falses (inputs : List LabeledExample) : Nat :=
  inputs.length - num_trues inputs

/-- Distinct elements of a list in order of first occurrence: the key order
of a Python Counter built by iterating the list. -/
def counterKeys (l : List Bool) : List Bool :=
  l.foldl (fun acc a => if a ∈ acc then acc else acc ++ [a]) []

/-- Source entropy: sum of -p * log2 p over the nonzero probabilities. -/
noncomputable def entropy (class_probs : List ℝ) : ℝ :=
  ((class_probs.filter (fun p => decide (p ≠ 0))).map
    (fun p => -p * Real.logb 2 p)).sum

/-- Source class_probabilities: each Counter value divided by the total
count, in Counter key order. -/
noncomputable def class_probabilities (labels : List Bool) : List ℝ :=
  (counterKeys labels).map
    (fun v => ((labels.count v : ℝ) / (labels.length : ℝ)))

/-- Source data_entropy: entropy of the label distribution. -/
noncomputable def data_entropy (labeled_data : List LabeledExample) : ℝ :=
  entropy (class_probabilities (labeled_data.map Prod.snd))

/-- Source partition_entropy: weighted sum of subset entropies. -/
noncomputable def partition_entropy (subsets : List (List LabeledExample)) : ℝ :=
  (subsets.map (fun subset =>
    data_entropy subset * (subset.length : ℝ)
      / (((subsets.map List.length).sum : ℕ) : ℝ))).sum

/-- Helper for group_by: append an item to the group with the given key,
keeping dict insertion order (a fresh key goes to the end), exactly as a
defaultdict(list) behaves. -/
def insertGroup {α : Type} (groups : List (String × List α)) (key : String)
    (item : α) : List (String × List α) :=
  match groups with
  | [] => [(key, [item])]
  | (k, g) :: rest =>
    if k == key then (k, g ++ [item]) :: rest
    else (k, g) :: insertGroup rest key item

/-- Loop of group_by: for item in items, groups[key_fn(item)].append(item);
a key_fn failure (Python exception) aborts the whole call. -/
def group_by_go {α : Type} (key_fn : α → Except PyErr String)
    (groups : List (String × List α)) : List α →
    Except PyErr (List (String × List α))
  | [] => .ok groups
  | item :: rest =>
    match key_fn item with
    | .error e => .error e
    | .ok k => group_by_go key_fn (insertGroup groups k item) rest

/-- Source group_by: fold the items into a keyed grouping starting from the
empty defaultdict. -/
def group_by {α : Type} (items : List α) (key_fn : α → Except PyErr String) :
    Except PyErr (List (String × List α)) :=
  group_by_go key_fn [] items

/-- Monadic map over Except, written as a plain structural recursion: the
first failure aborts, otherwise the results are collected in order.  It
models a Python comprehension whose body may raise. -/
def mapExcept {a b : Type} (f : a → Except PyErr b) : List a → Except PyErr (List b)
  | [] => .ok []
  | x :: xs =>
    match f x with
    | .error e => .error e
    | .ok y => (mapExcept f xs).map (fun ys => y :: ys)

/-- Source partition_by: group the examples by x[0][attribute].  The Python
dict indexing raises KeyError when the example lacks the attribute. -/
def partition_by (inputs : List LabeledExample) (attr : String) :
    Except PyErr (List (String × List LabeledExample)) :=
  group_by inputs (fun x =>
    match List.lookup attr x.1 with
    | some v => .ok v
    | none => .error .keyError)

/-- Source partition_entropy_by: partition, then take the partition entropy
of the groups of values. -/
noncomputable def partition_entropy_by (inputs : List LabeledExample)
    (attr : String) : Except PyErr ℝ :=
  (partition_by inputs attr).map
    (fun partitions => partition_entropy (partitions.map Prod.snd))

/-- Embeds min(split_candidates, key=partial(partition_entropy_by, inputs)):
evaluate the key of every candidate in order (any KeyError propagates, as in
Python), keeping the first candidate whose key is strictly below the current
minimum; min of an empty sequence is a ValueError. -/
noncomputable def bestAttribute (inputs : List LabeledExample)
    (split_candidates : List String) : Except PyErr String :=
  match split_candidates with
  | [] => .error .valueError
  | c :: rest => do
    let k0 ← partition_entropy_by inputs c
    let r ← rest.foldlM
      (fun best a => do
        let ka ← partition_entropy_by inputs a
        pure (if ka < best.2 then (a, ka) else best))
      (c, k0)
    pure r.1

/-- Recursive body of build_tree_id3 over explicit split candidates.  The
fuel only bounds the recursion depth; build_tree_id3 supplies fuel
exceeding the candidate count, which dominates the depth because each
recursive call removes the chosen attribute from the candidates. -/
noncomputable def buildFuel : Nat → List String → List LabeledExample →
    Except PyErr Tree
  | 0, _, _ => .error .recursionError
  | fuel + 1, split_candidates, inputs =>
    if num_trues inputs = 0 then .ok (.leaf false)
    else if num_falses inputs = 0 then .ok (.leaf true)
    else if split_candidates.isEmpty then
      .ok (.leaf (decide (num_falses inputs ≤ num_trues inputs)))
    else
      match bestAttribute inputs split_candidates with
      | .error e => .error e
      | .ok best_attribute =>
        match partition_by inputs best_attribute with
        | .error e => .error e
        | .ok partitions =>
          match mapExcept (fun p =>
              (buildFuel fuel
                  (split_candidates.filter (fun a => a != best_attribute))
                  p.2).map
                (fun t => ((some p.1 : Option String), t))) partitions with
          | .error e => .error e
          | .ok subtrees =>
            .ok (.node best_attribute
              (subtrees ++
                [((none : Option String),
                  .leaf (decide (num_falses inputs < num_trues inputs)))]))

/-- Candidate attributes of the first pass: the keys of the first input's
attribute dict, in insertion order. -/
def firstKeys : List LabeledExample → List String
  | [] => []
  | (x, _) :: _ => x.map Prod.fst

/-- Source build_tree_id3.  With split_candidates None the keys of
inputs[0] are used (IndexError on an empty input list, as in Python). -/
noncomputable def build_tree_id3 (inputs : List LabeledExample)
    (split_candidates : Option (List String)) : Except PyErr Tree :=
  match split_candidates with
  | none =>
    match inputs with
    | [] => .error .indexError
    | _ :: _ =>
      buildFuel ((firstKeys inputs).length + 1) (firstKeys inputs) inputs
  | some cands => buildFuel (cands.length + 1) cands inputs

mutual

/-- Source classify: a leaf returns its value; a decision node looks up its
attribute in the input (None when absent), falls back to the None key when
the value keys no subtree, and recurses; indexing a dict that lacks the
fallback key raises KeyError.  The dict walk is fused into classifyList so
the recursion is structural; classifyList finds the first entry whose key
matches and classifies with its subtree. -/
def classify : Tree → AttrMap → Except PyErr Bool
  | .leaf b, _ => .ok b
  | .node attr subtree_dict, input =>
    let k0 := List.lookup attr input
    let subtree_key :=
      if subtree_dict.any (fun p => p.1 == k0) then k0 else none
    classifyList subtree_dict subtree_key input

/-- Dict lookup of classify, fused with the recursive call on the subtree
found; an absent key is Python's KeyError. -/
def classifyList : List (Option String × Tree) → Option String → AttrMap →
    Except PyErr Bool
  | [], _, _ => .error .keyError
  | p :: rest, key, input =>
    if p.1 == key then classify p.2 input else classifyList rest key input

end

/-- Source forest_classify: classify with every tree, count the votes with
a Counter, and return most_common(1)[0][0]: the earliest-first-seen vote
among those of maximal count (CPython's most_common is stable, keeping
first-encounter order among equal counts); an empty forest raises
IndexError from the empty most_common list. -/
def forest_classify (trees : List Tree) (input : AttrMap) :
    Except PyErr Bool := do
  let votes ← mapExcept (fun tree => classify tree input) trees
  match counterKeys votes with
  | [] => .error .indexError
  | k :: ks =>
    .ok (ks.foldl
      (fun best v => if votes.count v > votes.count best then v else best) k)

/-- Row 1 of the hiring dataset of the source notebook. -/
def r1 : LabeledExample :=
  ([("level", "Senior"), ("lang", "Java"), ("tweets", "no"), ("phd", "no")], false)

/-- Row 2 of the hiring dataset. -/
def r2 : LabeledExample :=
  ([("level", "Senior"), ("lang", "Java"), ("tweets", "no"), ("phd", "yes")], false)

/-- Row 3 of the hiring dataset. -/
def r3 : LabeledExample :=
  ([("level", "Mid"), ("lang", "Python"), ("tweets", "no"), ("phd", "no")], true)

/-- Row 4 of the hiring dataset. -/
def r4 : LabeledExample :=
  ([("level", "Junior"), ("lang", "Python"), ("tweets", "no"), ("phd", "no")], true)

/-- Row 5 of the hiring dataset. -/
def r5 : LabeledExample :=
  ([("level", "Junior"), ("lang", "R"), ("tweets", "yes"), ("phd", "no")], true)

/-- Row 6 of the hiring dataset. -/
def r6 : LabeledExample :=
  ([("level", "Junior"), ("lang", "R"), ("tweets", "yes"), ("phd", "yes")], false)

/-- Row 7 of the hiring dataset. -/
def r7 : LabeledExample :=
  ([("level", "Mid"), ("lang", "R"), ("tweets", "yes"), ("phd", "yes")], true)

/-- Row 8 of the hiring dataset. -/
def r8 : LabeledExample :=
  ([("level", "Senior"), ("lang", "Python"), ("tweets", "no"), ("phd", "no")], false)

/-- Row 9 of the hiring dataset. -/
def r9 : LabeledExample :=
  ([("level", "Senior"), ("lang", "R"), ("tweets", "yes"), ("phd", "no")], true)

/-- Row 10 of the hiring dataset. -/
def r10 : LabeledExample :=
  ([("level", "Junior"), ("lang", "Python"), ("tweets", "yes"), ("phd", "no")], true)

/-- Row 11 of the hiring dataset. -/
def r11 : LabeledExample :=
  ([("level", "Senior"), ("lang", "Python"), ("tweets", "yes"), ("phd", "yes")], true)

/-- Row 12 of the hiring dataset. -/
def r12 : LabeledExample :=
  ([("level", "Mid"), ("lang", "Python"), ("tweets", "no"), ("phd", "yes")], true)

/-- Row 13 of the hiring dataset. -/
def r13 : LabeledExample :=
  ([("level", "Mid"), ("lang", "Java"), ("tweets", "yes"), ("phd", "no")], true)

/-- Row 14 of the hiring dataset. -/
def r14 : LabeledExample :=
  ([("level", "Junior"), ("lang", "Python"), ("tweets", "no"), ("phd", "yes")], false)

/-- The source's 14-row hiring dataset, named inputs in the notebook. -/
def inputs : List LabeledExample :=
  [r1, r2, r3, r4, r5, r6, r7, r8, r9, r10, r11, r12, r13, r14]

/-- Senior-level rows of the hiring dataset, in dataset order: the group
partition_by inputs "level" forms for the value Senior. -/
def seniorRows : List LabeledExample := [r1, r2, r8, r9, r11]

/-- Mid-level rows of the hiring dataset, in dataset order. -/
def midRows : List LabeledExample := [r3, r7, r12, r13]

/-- Junior-level rows of the hiring dataset, in dataset order. -/
def juniorRows : List LabeledExample := [r4, r5, r6, r10, r14]

/-- The tree the notebook prints for the hiring dataset. -/
def hiringTree : Tree :=
  .node "level"
    [(some "Senior", .node "tweets"
        [(some "no", .leaf false), (some "yes", .leaf true),
         (none, .leaf false)]),
     (some "Mid", .leaf true),
     (some "Junior", .node "phd"
        [(some "no", .leaf true), (some "yes", .leaf false),
         (none, .leaf true)]),
     (none, .leaf true)]

/-- The worked example's first query: Junior / Java / tweets / no phd. -/
def queryNoPhd : AttrMap :=
  [("level", "Junior"), ("lang", "Java"), ("tweets", "yes"), ("phd", "no")]

/-- The worked example's second query: Junior / Java / tweets / phd. -/
def queryPhd : AttrMap :=
  [("level", "Junior"), ("lang", "Java"), ("tweets", "yes"), ("phd", "yes")]

/-- A two-row dataset whose labels tie one True against one False; building
on it splits on the only attribute and records the tie in the None child. -/
def tieInputs : List LabeledExample :=
  [([("a", "x")], true), ([("a", "y")], false)]

/-- The tree build_tree_id3 produces from tieInputs. -/
def tieTree : Tree :=
  .node "a" [(some "x", .leaf true), (some "y", .leaf false),
    (none, .leaf false)]

/-- Trees in which every decision node's dict carries the None fallback key
(at every depth): the invariant of claim C6. -/
inductive GoodTree : Tree → Prop where
  | leaf (b : Bool) : GoodTree (.leaf b)
  | node (a : String) (dict : List (Option String × Tree))
      (hnone : dict.any (fun p => p.1 == (none : Option String)) = true)
      (hchild : ∀ p ∈ dict, GoodTree p.2) : GoodTree (.node a dict)

/-- Builds that stop only through the same-label terminal conditions: no
recursive call reaches the attribute-exhausted majority leaf.  The split
constructor mirrors the recursive case of build_tree_id3 exactly. -/
inductive PureBuild : List String → List LabeledExample → Prop where
  | allFalse (cands : List String) (data : List LabeledExample)
      (h : num_trues data = 0) : PureBuild cands data
  | allTrue (cands : List String) (data : List LabeledExample)
      (h : num_falses data = 0) : PureBuild cands data
  | split (cands : List String) (data : List LabeledExample) (best : String)
      (partitions : List (String × List LabeledExample))
      (ht : num_trues data ≠ 0) (hf : num_falses data ≠ 0)
      (hbest : bestAttribute data cands = .ok best)
      (hpart : partition_by data best = .ok partitions)
      (hrec : ∀ p ∈ partitions,
        PureBuild (cands.filter (fun a => a != best)) p.2) :
      PureBuild cands data

/-- Bind of an ok value in the Except monad. -/
@[simp] lemma ok_bind {ε α β : Type} (x : α) (f : α → Except ε β) :
    (Except.ok x >>= f) = f x := rfl

/-- Bind of an error in the Except monad. -/
@[simp] lemma error_bind {ε α β : Type} (e : ε) (f : α → Except ε β) :
    ((Except.error e : Except ε α) >>= f) = .error e := rfl

/-- Except.map over an ok value. -/
@[simp] lemma map_ok {ε α β : Type} (f : α → β) (x : α) :
    (Except.ok x : Except ε α).map f = .ok (f x) := rfl

/-- Except.map over an error. -/
@[simp] lemma map_error {ε α β : Type} (f : α → β) (e : ε) :
    (Except.error e : Except ε α).map f = .error e := rfl

/-- Pure in the Except monad is ok. -/
@[simp] lemma pure_eq_ok {ε α : Type} (x : α) :
    (pure x : Except ε α) = .ok x := rfl

/-- Appending an item to its group permutes to consing it onto the flattened
grouping. -/
lemma insertGroup_flatten_perm {α : Type} (gs : List (String × List α))
    (k : String) (x : α) :
    (((insertGroup gs k x).map Prod.snd).flatten).Perm
      (x :: (gs.map Prod.snd).flatten) := by
  induction gs with
  | nil => simp [insertGroup]
  | cons hd tl ih =>
    obtain ⟨k', g⟩ := hd
    by_cases h : (k' == k) = true
    · simp only [insertGroup, if_pos h, List.map_cons, List.flatten_cons]
      rw [List.append_assoc, List.singleton_append]
      exact List.perm_middle
    · simp only [insertGroup, if_neg h, List.map_cons, List.flatten_cons]
      exact (ih.append_left g).trans List.perm_middle

/-- A successful group_by loop flattens to a permutation of the
accumulator's contents followed by the remaining items. -/
lemma group_by_go_perm {α : Type} (key_fn : α → Except PyErr String)
    (items : List α) :
    ∀ acc gs, group_by_go key_fn acc items = .ok gs →
      ((gs.map Prod.snd).flatten).Perm ((acc.map Prod.snd).flatten ++ items) := by
  induction items with
  | nil =>
    intro acc gs h
    unfold group_by_go at h
    cases h
    simp
  | cons a items ih =>
    intro acc gs h
    unfold group_by_go at h
    cases hk : key_fn a with
    | error e => rw [hk] at h; cases h
    | ok k =>
      rw [hk] at h
      exact (ih (insertGroup acc k a) gs h).trans
        ((((insertGroup_flatten_perm acc k a).append_right items).trans
          List.perm_middle.symm))

/-- When every key evaluation succeeds, the group_by loop succeeds. -/
lemma group_by_go_ok_of_forall {α : Type} (key_fn : α → Except PyErr String)
    (items : List α) :
    ∀ acc, (∀ p ∈ items, ∃ v, key_fn p = .ok v) →
      ∃ gs, group_by_go key_fn acc items = .ok gs := by
  induction items with
  | nil => exact fun acc _ => ⟨acc, rfl⟩
  | cons a items ih =>
    intro acc hall
    obtain ⟨v, hv⟩ := hall a (List.mem_cons_self a items)
    obtain ⟨gs, hgs⟩ :=
      ih (insertGroup acc v a) (fun p hp => hall p (List.mem_cons_of_mem a hp))
    exact ⟨gs, by unfold group_by_go; rw [hv]; exact hgs⟩

/-- When some item's key evaluation raises KeyError and key evaluation can
only succeed or raise KeyError, the group_by loop raises KeyError. -/
lemma group_by_go_error_of_mem {α : Type} (key_fn : α → Except PyErr String)
    (herr : ∀ p, key_fn p = .error .keyError ∨ ∃ v, key_fn p = .ok v)
    (items : List α) :
    ∀ acc x, x ∈ items → key_fn x = .error .keyError →
      group_by_go key_fn acc items = .error .keyError := by
  induction items with
  | nil => intro acc x hx; exact absurd hx (List.not_mem_nil x)
  | cons a items ih =>
    intro acc x hx hfx
    unfold group_by_go
    cases hk : key_fn a with
    | error e =>
      rcases herr a with h | ⟨v, hv⟩
      · rw [hk] at h
        cases h
        rfl
      · rw [hk] at hv; cases hv
    | ok k =>
      rcases List.mem_cons.mp hx with rfl | hx2
      · rw [hk] at hfx; cases hfx
      · exact ih (insertGroup acc k a) x hx2 hfx

/-- The key function of partition_by either succeeds or raises KeyError. -/
lemma partition_key_cases (attr : String) (p : LabeledExample) :
    (match List.lookup attr p.1 with
      | some v => (.ok v : Except PyErr String)
      | none => .error .keyError) = .error .keyError ∨
    ∃ v, (match List.lookup attr p.1 with
      | some v => (.ok v : Except PyErr String)
      | none => .error .keyError) = .ok v := by
  cases hl : List.lookup attr p.1 with
  | none => exact Or.inl rfl
  | some v => exact Or.inr ⟨v, rfl⟩

/-- Claim C4 (counterexample): an example lacking the attribute makes
partition_by raise KeyError; it is not grouped under any missing sentinel. -/
theorem c4_counterexample :
    partition_by [(([] : AttrMap), true)] "a" = .error .keyError := rfl

/-- Claim C4 (amended): whenever some example of the list lacks the
attribute, partition_by raises KeyError instead of returning a grouping;
the None sentinel exists only in classification and in the None child that
build_tree_id3 installs, never as a partition_by group key. -/
theorem c4_amended (data : List LabeledExample) (attr : String) (x : AttrMap)
    (l : Bool) (hmem : (x, l) ∈ data) (hmiss : List.lookup attr x = none) :
    partition_by data attr = .error .keyError := by
  unfold partition_by group_by
  exact group_by_go_error_of_mem _ (partition_key_cases attr) data [] (x, l)
    hmem (by simp [hmiss])

/-- Claim C4 (witness): the amended theorem applied to a concrete example
lacking the attribute. -/
theorem c4_witness :
    partition_by [([("b", "z")], false)] "a" = .error .keyError :=
  c4_amended [([("b", "z")], false)] "a" [("b", "z")] false (by simp) rfl

/-- Claim C7: when every example carries the attribute, partition_by
succeeds and its groups contain each input example exactly once (with
multiplicity): the flattened groups are a permutation of the input and the
group sizes sum to the input size. -/
theorem c7_partition_exact (data : List LabeledExample) (attr : String)
    (hall : ∀ p ∈ data, (List.lookup attr p.1).isSome = true) :
    ∃ gs, partition_by data attr = .ok gs ∧
      ((gs.map Prod.snd).flatten).Perm data ∧
      (gs.map (fun g => g.2.length)).sum = data.length := by
  have hok : ∀ p ∈ data, ∃ v,
      (match List.lookup attr p.1 with
        | some v => (.ok v : Except PyErr String)
        | none => .error .keyError) = .ok v := by
    intro p hp
    cases hl : List.lookup attr p.1 with
    | none => have := hall p hp; rw [hl] at this; cases this
    | some v => exact ⟨v, rfl⟩
  obtain ⟨gs, hgs⟩ := group_by_go_ok_of_forall _ data [] hok
  have hperm : ((gs.map Prod.snd).flatten).Perm data := by
    have := group_by_go_perm _ data [] gs hgs
    simpa using this
  refine ⟨gs, hgs, hperm, ?_⟩
  have hlen := hperm.length_eq
  rw [List.length_flatten, List.map_map] at hlen
  simpa [Function.comp] using hlen

/-- Claim C7 (witness): the theorem applied to the two-row tie dataset and
its only attribute. -/
theorem c7_witness :
    ∃ gs, partition_by tieInputs "a" = .ok gs ∧
      ((gs.map Prod.snd).flatten).Perm tieInputs ∧
      (gs.map (fun g => g.2.length)).sum = tieInputs.length :=
  c7_partition_exact tieInputs "a" (by decide)

/-- Claim C8 (counterexample): invoked on zero training examples the code
does not raise any named InvalidInput condition: with explicit
split_candidates it silently returns the False leaf (a tree), and with the
default candidates it fails with the unnamed IndexError of inputs[0]. -/
theorem c8_counterexample :
    build_tree_id3 [] (some ["level"]) = .ok (.leaf false) ∧
      build_tree_id3 [] none = .error .indexError :=
  ⟨rfl, rfl⟩

/-- Claim C8 (amended): on zero training examples build_tree_id3 raises
IndexError (from indexing inputs[0]) when split_candidates defaults to
None, and returns the False leaf for every explicitly supplied candidate
list; no InvalidInput-style error exists in the code. -/
theorem c8_amended :
    build_tree_id3 [] none = .error .indexError ∧
      ∀ cands, build_tree_id3 [] (some cands) = .ok (.leaf false) :=
  ⟨rfl, fun _ => rfl⟩

/-- Claim C9: a forest of one tree classifies exactly as that tree, for
every tree and every input (errors included). -/
theorem c9_singleton_forest (t : Tree) (input : AttrMap) :
    forest_classify [t] input = classify t input := by
  unfold forest_classify
  cases h : classify t input with
  | error e => simp [mapExcept, h]
  | ok b => simp [mapExcept, h, counterKeys]

/-- A successful mapExcept relates inputs and outputs pointwise. -/
lemma mapExcept_ok_forall₂ {α β : Type} (f : α → Except PyErr β) :
    ∀ (l : List α) (ys : List β), mapExcept f l = .ok ys →
      List.Forall₂ (fun a b => f a = .ok b) l ys := by
  intro l
  induction l with
  | nil =>
    intro ys h
    cases h
    exact List.Forall₂.nil
  | cons a l ih =>
    intro ys h
    unfold mapExcept at h
    cases hfa : f a with
    | error e => rw [hfa] at h; cases h
    | ok b =>
      rw [hfa] at h
      cases hml : mapExcept f l with
      | error e => rw [hml] at h; cases h
      | ok bs =>
        rw [hml] at h
        simp only [map_ok] at h
        cases h
        exact List.Forall₂.cons hfa (ih bs hml)

/-- Every member of the right list of a Forall₂ has a related member on the
left. -/
lemma forall₂_mem_right {α β : Type} {R : α → β → Prop} :
    ∀ {l : List α} {ys : List β}, List.Forall₂ R l ys →
      ∀ y ∈ ys, ∃ x ∈ l, R x y := by
  intro l ys h
  induction h with
  | nil => intro y hy; cases hy
  | cons hr _ ih =>
    intro y hy
    rcases List.mem_cons.mp hy with rfl | hy2
    · exact ⟨_, List.mem_cons_self _ _, hr⟩
    · obtain ⟨x, hx, hrx⟩ := ih y hy2
      exact ⟨x, List.mem_cons_of_mem _ hx, hrx⟩

/-- Every member of the left list of a Forall₂ has a related member on the
right. -/
lemma forall₂_mem_left {α β : Type} {R : α → β → Prop} :
    ∀ {l : List α} {ys : List β}, List.Forall₂ R l ys →
      ∀ x ∈ l, ∃ y ∈ ys, R x y := by
  intro l ys h
  induction h with
  | nil => intro x hx; cases hx
  | cons hr _ ih =>
    intro x hx
    rcases List.mem_cons.mp hx with rfl | hx2
    · exact ⟨_, List.mem_cons_self _ _, hr⟩
    · obtain ⟨y, hy, hry⟩ := ih x hx2
      exact ⟨y, List.mem_cons_of_mem _ hy, hry⟩

/-- Every tree a successful buildFuel run returns satisfies the None-child
invariant at every depth. -/
lemma buildFuel_goodTree : ∀ (n : Nat) (cands : List String)
    (data : List LabeledExample) (t : Tree),
    buildFuel n cands data = .ok t → GoodTree t := by
  intro n
  induction n with
  | zero => intro cands data t h; cases h
  | succ n ih =>
    intro cands data t h
    unfold buildFuel at h
    split at h
    · cases h; exact GoodTree.leaf false
    split at h
    · cases h; exact GoodTree.leaf true
    split at h
    · cases h; exact GoodTree.leaf _
    split at h
    · cases h
    rename_i best hb
    split at h
    · cases h
    rename_i partitions hp
    split at h
    · cases h
    rename_i subtrees hm
    cases h
    apply GoodTree.node
    · simp [List.any_append]
    · intro p hp2
      rcases List.mem_append.mp hp2 with hin | hin
      · obtain ⟨q, hq, hqe⟩ :=
          forall₂_mem_right (mapExcept_ok_forall₂ _ partitions subtrees hm) p hin
        cases hbq : buildFuel n (cands.filter (fun a => a != best)) q.2 with
        | error e => rw [hbq] at hqe; cases hqe
        | ok tq =>
          rw [hbq] at hqe
          simp only [map_ok] at hqe
          cases hqe
          exact ih _ _ _ hbq
      · rw [List.mem_singleton] at hin
        cases hin
        exact GoodTree.leaf _

/-- Every tree build_tree_id3 returns satisfies the None-child invariant. -/
lemma build_tree_goodTree (data : List LabeledExample)
    (sc : Option (List String)) (t : Tree)
    (h : build_tree_id3 data sc = .ok t) : GoodTree t := by
  unfold build_tree_id3 at h
  cases sc with
  | some cands => exact buildFuel_goodTree _ _ _ _ h
  | none =>
    cases data with
    | nil => cases h
    | cons a l => exact buildFuel_goodTree _ _ _ _ h

/-- When some key of the dict matches and every subtree classifies totally,
the dict walk classifies totally. -/
lemma classifyList_total (key : Option String) (input : AttrMap) :
    ∀ (dict : List (Option String × Tree)),
      dict.any (fun p => p.1 == key) = true →
      (∀ p ∈ dict, ∀ inp, ∃ b, classify p.2 inp = .ok b) →
      ∃ b, classifyList dict key input = .ok b := by
  intro dict
  induction dict with
  | nil => intro hany; cases hany
  | cons p rest ih =>
    intro hany hall
    by_cases hp : (p.1 == key) = true
    · obtain ⟨b, hb⟩ := hall p (List.mem_cons_self _ _) input
      exact ⟨b, by unfold classifyList; rw [if_pos hp]; exact hb⟩
    · rw [List.any_cons] at hany
      have hany2 : rest.any (fun q => q.1 == key) = true := by
        cases hq : (p.1 == key)
        · rw [hq] at hany; simpa using hany
        · exact absurd hq hp
      obtain ⟨b, hb⟩ :=
        ih hany2 (fun q hq inp => hall q (List.mem_cons_of_mem _ hq) inp)
      exact ⟨b, by unfold classifyList; rw [if_neg hp]; exact hb⟩

/-- Classification is total (returns some boolean) on every tree satisfying
the None-child invariant: the dict walk always finds either the input's
value key or the None fallback. -/
lemma goodTree_classify (t : Tree) (hg : GoodTree t) :
    ∀ input, ∃ b, classify t input = .ok b := by
  induction hg with
  | leaf b => exact fun _ => ⟨b, rfl⟩
  | node a dict hnone hchild ih =>
    intro input
    have hcl : classify (.node a dict) input =
        classifyList dict
          (if dict.any (fun p => p.1 == List.lookup a input)
            then List.lookup a input else none) input := rfl
    rw [hcl]
    by_cases hk : dict.any (fun p => p.1 == List.lookup a input) = true
    · rw [if_pos hk]
      exact classifyList_total _ input dict hk ih
    · rw [if_neg hk]
      exact classifyList_total _ input dict hnone ih

/-- The tie dataset builds exactly the tie tree (whose None child is the
False leaf). -/
lemma build_tie : build_tree_id3 tieInputs none = .ok tieTree := rfl

/-- Claim C6: every tree returned by build_tree_id3 satisfies GoodTree:
each decision node's child dict contains the distinguished None entry, at
every depth of the tree. -/
theorem c6_none_key_invariant (data : List LabeledExample)
    (sc : Option (List String)) (t : Tree)
    (h : build_tree_id3 data sc = .ok t) : GoodTree t :=
  build_tree_goodTree data sc t h

/-- Claim C6 (witness): the invariant of the tree built from the concrete
two-row dataset. -/
theorem c6_witness : GoodTree tieTree :=
  c6_none_key_invariant tieInputs none tieTree build_tie

/-- Claim C5: for every tree successfully built by build_tree_id3 (any
input data, any candidate option) and every input attribute mapping,
classification returns a boolean and never an error; termination is by
construction since classify is a total function of the embedding. -/
theorem c5_classify_total (data : List LabeledExample)
    (sc : Option (List String)) (t : Tree)
    (hb : build_tree_id3 data sc = .ok t) (input : AttrMap) :
    ∃ b, classify t input = .ok b :=
  goodTree_classify t (build_tree_goodTree data sc t hb) input

/-- Claim C5 (witness): classifying an empty input with the tree built from
the tie dataset returns a boolean. -/
theorem c5_witness : ∃ b, classify tieTree [] = .ok b :=
  c5_classify_total tieInputs none tieTree build_tie []

/-- Claim C3 (counterexample): on the two-row dataset with one True and one
False label the build makes a decision node whose None child is the leaf
False, although the claimed tie convention (ties favor True) demands the
leaf True. -/
theorem c3_counterexample :
    build_tree_id3 tieInputs none = .ok tieTree ∧
      num_trues tieInputs = num_falses tieInputs ∧
      (∃ dict, tieTree = .node "a" dict ∧
        List.lookup (none : Option String) dict = some (.leaf false)) ∧
      Tree.leaf false ≠ Tree.leaf true :=
  ⟨rfl, rfl, ⟨_, rfl, rfl⟩, by simp⟩

/-- Claim C3 (amended): the None child of every decision node built by the
recursion of build_tree_id3 is the leaf of the strict majority test
num_trues > num_falses over the examples at that node: True when the trues
strictly outnumber the falses and False otherwise, so a tie yields the leaf
False (not True as claimed). -/
theorem c3_amended (n : Nat) (cands : List String)
    (data : List LabeledExample) (a : String)
    (dict : List (Option String × Tree))
    (h : buildFuel n cands data = .ok (.node a dict)) :
    List.lookup (none : Option String) dict =
      some (.leaf (decide (num_falses data < num_trues data))) := by
  cases n with
  | zero => cases h
  | succ n =>
    unfold buildFuel at h
    split at h
    · cases h
    split at h
    · cases h
    split at h
    · cases h
    split at h
    · cases h
    rename_i best hb
    split at h
    · cases h
    rename_i partitions hp
    split at h
    · cases h
    rename_i subtrees hm
    cases h
    have hkeys : ∀ p ∈ subtrees, p.1 ≠ (none : Option String) := by
      intro p hin
      obtain ⟨q, hq, hqe⟩ :=
        forall₂_mem_right (mapExcept_ok_forall₂ _ partitions subtrees hm) p hin
      cases hbq : buildFuel n (cands.filter (fun s => s != a)) q.2 with
      | error e => rw [hbq] at hqe; cases hqe
      | ok tq =>
        rw [hbq] at hqe
        simp only [map_ok] at hqe
        cases hqe
        simp
    clear hm
    induction subtrees with
    | nil => rfl
    | cons p rest ih2 =>
      have hp1 := hkeys p (List.mem_cons_self _ _)
      have hbeq : ((none : Option String) == p.1) = false := by
        cases hpv : p.1 with
        | none => exact absurd hpv hp1
        | some v => rfl
      rw [List.cons_append, List.lookup_cons, hbeq]
      exact ih2 (fun q hq => hkeys q (List.mem_cons_of_mem _ hq))

/-- Claim C3 (witness): the amended rule evaluated on the tie dataset,
whose decision node stores the strict-majority leaf False. -/
theorem c3_witness :
    List.lookup (none : Option String)
      [(some "x", Tree.leaf true), (some "y", Tree.leaf false),
        ((none : Option String), Tree.leaf false)] = some (Tree.leaf false) :=
  c3_amended 2 ["a"] tieInputs "a" _ rfl

/-- The counterKeys fold only ever appends to its accumulator. -/
lemma counterKeys_go_prefix (l : List Bool) :
    ∀ acc, ∃ ks,
      l.foldl (fun acc a => if a ∈ acc then acc else acc ++ [a]) acc =
        acc ++ ks := by
  induction l with
  | nil => exact fun acc => ⟨[], by simp⟩
  | cons a l ih =>
    intro acc
    rw [List.foldl_cons]
    by_cases h : a ∈ acc
    · obtain ⟨ks, hks⟩ := ih acc
      exact ⟨ks, by rw [if_pos h]; exact hks⟩
    · obtain ⟨ks, hks⟩ := ih (acc ++ [a])
      exact ⟨[a] ++ ks, by rw [if_neg h, hks, List.append_assoc]⟩

/-- The first Counter key is the first vote. -/
lemma counterKeys_cons (a : Bool) (l : List Bool) :
    ∃ ks, counterKeys (a :: l) = a :: ks := by
  unfold counterKeys
  rw [List.foldl_cons]
  obtain ⟨ks, hks⟩ := counterKeys_go_prefix l (if a ∈ ([] : List Bool) then [] else [] ++ [a])
  exact ⟨ks, by simpa using hks⟩

/-- The most_common fold keeps its start element when no later key has a
strictly larger count. -/
lemma foldl_first_max (votes : List Bool) (v0 : Bool)
    (hmax : ∀ v, ¬ List.count v votes > List.count v0 votes) :
    ∀ ks : List Bool, ks.foldl
      (fun best v => if List.count v votes > List.count best votes then v
        else best) v0 = v0 := by
  intro ks
  induction ks with
  | nil => rfl
  | cons k ks ih => rw [List.foldl_cons, if_neg (hmax k)]; exact ih

/-- Claim C10: when the votes of a non-empty forest split into equal counts
of True and False, forest_classify returns the first tree's classification
(the Counter keeps first-insertion order and most_common is stable), not a
fixed preference for True. -/
theorem c10_tie_first_tree (t0 : Tree) (rest : List Tree) (input : AttrMap)
    (votes : List Bool)
    (hv : mapExcept (fun tree => classify tree input) (t0 :: rest) = .ok votes)
    (heq : votes.count true = votes.count false) :
    forest_classify (t0 :: rest) input = classify t0 input := by
  unfold mapExcept at hv
  cases h0 : classify t0 input with
  | error e => rw [h0] at hv; cases hv
  | ok v0 =>
    rw [h0] at hv
    cases hm : mapExcept (fun tree => classify tree input) rest with
    | error e => rw [hm] at hv; cases hv
    | ok vrest =>
      rw [hm] at hv
      simp only [map_ok] at hv
      cases hv
      have hmax : ∀ v, ¬ List.count v (v0 :: vrest) > List.count v0 (v0 :: vrest) := by
        intro v
        cases v0 <;> cases v <;>
          simp_all [le_refl, Nat.lt_irrefl, le_of_eq]
      unfold forest_classify
      rw [show mapExcept (fun tree => classify tree input) (t0 :: rest) =
        .ok (v0 :: vrest) by unfold mapExcept; rw [h0, hm]; rfl]
      simp only [ok_bind]
      obtain ⟨ks, hks⟩ := counterKeys_cons v0 vrest
      rw [hks]
      show Except.ok (List.foldl (fun best v =>
        if List.count v (v0 :: vrest) > List.count best (v0 :: vrest) then v
        else best) v0 ks) = Except.ok v0
      rw [foldl_first_max (v0 :: vrest) v0 hmax ks]

/-- Claim C10 (witness): a two-tree forest voting one True against one
False returns the first tree's True. -/
theorem c10_witness :
    forest_classify [Tree.leaf true, Tree.leaf false] [] =
      classify (Tree.leaf true) [] :=
  c10_tie_first_tree (Tree.leaf true) [Tree.leaf false] [] [true, false]
    rfl (by decide)

/-- With zero true labels, every example of the list is labeled false. -/
lemma num_trues_zero {data : List LabeledExample} (h : num_trues data = 0) :
    ∀ x l, (x, l) ∈ data → l = false := by
  intro x l hm
  unfold num_trues at h
  rw [List.length_eq_zero, List.filter_eq_nil_iff] at h
  simpa using h (x, l) hm

/-- With zero false labels, every example of the list is labeled true. -/
lemma num_falses_zero {data : List LabeledExample} (h : num_falses data = 0) :
    ∀ x l, (x, l) ∈ data → l = true := by
  have hle : num_trues data ≤ data.length := List.length_filter_le _ _
  have hge : data.length ≤ num_trues data := Nat.le_of_sub_eq_zero h
  have heq : (data.filter (fun p => p.2)).length = data.length :=
    le_antisymm hle hge
  rw [List.filter_length_eq_length] at heq
  exact fun x l hm => heq (x, l) hm

/-- A successful group_by loop evaluated every item's key successfully. -/
lemma group_by_go_ok_forall {α : Type} (f : α → Except PyErr String) :
    ∀ (items : List α) acc gs, group_by_go f acc items = .ok gs →
      ∀ x ∈ items, ∃ v, f x = .ok v := by
  intro items
  induction items with
  | nil => intro acc gs _ x hx; cases hx
  | cons a items ih =>
    intro acc gs h x hx
    unfold group_by_go at h
    cases hk : f a with
    | error e => rw [hk] at h; cases h
    | ok k =>
      rw [hk] at h
      rcases List.mem_cons.mp hx with rfl | hx2
      · exact ⟨k, hk⟩
      · exact ih _ _ h x hx2

/-- Inserting an item preserves every existing group membership (the group
keyed alike only grows). -/
lemma insertGroup_mem_mono {α : Type} :
    ∀ (acc : List (String × List α)) (k : String) (x : α) (v : String)
      (g : List α), (v, g) ∈ acc →
      ∃ g2, (v, g2) ∈ insertGroup acc k x ∧ ∀ y ∈ g, y ∈ g2 := by
  intro acc
  induction acc with
  | nil => intro k x v g hg; cases hg
  | cons p rest ih =>
    intro k x v g hg
    obtain ⟨k0, g0⟩ := p
    unfold insertGroup
    by_cases hk : (k0 == k) = true
    · rw [if_pos hk]
      rcases List.mem_cons.mp hg with heq | hg2
      · cases heq
        exact ⟨g ++ [x], List.mem_cons_self _ _,
          fun y hy => List.mem_append_left _ hy⟩
      · exact ⟨g, List.mem_cons_of_mem _ hg2, fun y hy => hy⟩
    · rw [if_neg hk]
      rcases List.mem_cons.mp hg with heq | hg2
      · cases heq
        exact ⟨g, List.mem_cons_self _ _, fun y hy => hy⟩
      · obtain ⟨g2, hg2m, hsub⟩ := ih k x v g hg2
        exact ⟨g2, List.mem_cons_of_mem _ hg2m, hsub⟩

/-- The inserted item belongs to the group of its own key. -/
lemma insertGroup_self_mem {α : Type} :
    ∀ (acc : List (String × List α)) (k : String) (x : α),
      ∃ g, (k, g) ∈ insertGroup acc k x ∧ x ∈ g := by
  intro acc
  induction acc with
  | nil =>
    intro k x
    exact ⟨[x], List.mem_singleton.mpr rfl, List.mem_singleton.mpr rfl⟩
  | cons p rest ih =>
    intro k x
    obtain ⟨k0, g0⟩ := p
    unfold insertGroup
    by_cases hk : (k0 == k) = true
    · rw [if_pos hk]
      have hk0 : k0 = k := eq_of_beq hk
      cases hk0
      exact ⟨g0 ++ [x], List.mem_cons_self _ _,
        List.mem_append_right _ (List.mem_singleton.mpr rfl)⟩
    · rw [if_neg hk]
      obtain ⟨g, hgm, hx⟩ := ih k x
      exact ⟨g, List.mem_cons_of_mem _ hgm, hx⟩

/-- Group membership in the accumulator survives to the final grouping. -/
lemma group_by_go_acc_mono {α : Type} (f : α → Except PyErr String) :
    ∀ (items : List α) acc gs, group_by_go f acc items = .ok gs →
      ∀ v g, (v, g) ∈ acc → ∃ g2, (v, g2) ∈ gs ∧ ∀ y ∈ g, y ∈ g2 := by
  intro items
  induction items with
  | nil =>
    intro acc gs h v g hg
    cases h
    exact ⟨g, hg, fun y hy => hy⟩
  | cons a items ih =>
    intro acc gs h v g hg
    unfold group_by_go at h
    cases hk : f a with
    | error e => rw [hk] at h; cases h
    | ok k =>
      rw [hk] at h
      obtain ⟨g1, hg1, hsub1⟩ := insertGroup_mem_mono acc k a v g hg
      obtain ⟨g2, hg2, hsub2⟩ := ih _ _ h v g1 hg1
      exact ⟨g2, hg2, fun y hy => hsub2 y (hsub1 y hy)⟩

/-- Every item of a successful group_by loop ends up in the group keyed by
its own key value. -/
lemma group_by_go_mem {α : Type} (f : α → Except PyErr String) :
    ∀ (items : List α) acc gs, group_by_go f acc items = .ok gs →
      ∀ x ∈ items, ∀ v, f x = .ok v → ∃ g, (v, g) ∈ gs ∧ x ∈ g := by
  intro items
  induction items with
  | nil => intro acc gs _ x hx; cases hx
  | cons a items ih =>
    intro acc gs h x hx v hfx
    unfold group_by_go at h
    cases hk : f a with
    | error e => rw [hk] at h; cases h
    | ok k =>
      rw [hk] at h
      rcases List.mem_cons.mp hx with rfl | hx2
      · rw [hk] at hfx
        injection hfx with hkv
        subst hkv
        obtain ⟨g1, hg1, hxg1⟩ := insertGroup_self_mem acc k x
        obtain ⟨g2, hg2, hsub⟩ := group_by_go_acc_mono f items _ gs h k g1 hg1
        exact ⟨g2, hg2, hsub x hxg1⟩
      · exact ih _ _ h x hx2 v hfx

/-- Inserting preserves distinctness of the group keys and adds at most the
inserted key. -/
lemma insertGroup_keys_nodup {α : Type} :
    ∀ (acc : List (String × List α)) (k : String) (x : α),
      ((acc.map Prod.fst).Nodup →
        (((insertGroup acc k x).map Prod.fst).Nodup)) ∧
      (∀ k2, k2 ∈ (insertGroup acc k x).map Prod.fst →
        k2 ∈ acc.map Prod.fst ∨ k2 = k) := by
  intro acc
  induction acc with
  | nil =>
    intro k x
    constructor
    · intro _
      simp [insertGroup]
    · intro k2 h2
      simp [insertGroup] at h2
      exact Or.inr h2
  | cons p rest ih =>
    intro k x
    obtain ⟨k0, g0⟩ := p
    constructor
    · intro hnd
      unfold insertGroup
      by_cases hk : (k0 == k) = true
      · rw [if_pos hk]
        simpa using hnd
      · rw [if_neg hk]
        rw [List.map_cons, List.nodup_cons] at hnd ⊢
        refine ⟨?_, (ih k x).1 hnd.2⟩
        intro hmem
        rcases (ih k x).2 k0 hmem with hin | heq
        · exact hnd.1 hin
        · exact hk (by rw [heq]; exact beq_self_eq_true k)
    · intro k2 h2
      unfold insertGroup at h2
      by_cases hk : (k0 == k) = true
      · rw [if_pos hk] at h2
        exact Or.inl (by simpa using h2)
      · rw [if_neg hk] at h2
        rw [List.map_cons, List.mem_cons] at h2
        rcases h2 with heq | h3
        · exact Or.inl (by rw [List.map_cons, List.mem_cons]; exact Or.inl heq)
        · rcases (ih k x).2 k2 h3 with hin | heq
          · exact Or.inl (List.mem_cons_of_mem _ hin)
          · exact Or.inr heq

/-- The group keys of a successful group_by loop are distinct. -/
lemma group_by_go_keys_nodup {α : Type} (f : α → Except PyErr String) :
    ∀ (items : List α) acc gs, group_by_go f acc items = .ok gs →
      (acc.map Prod.fst).Nodup → (gs.map Prod.fst).Nodup := by
  intro items
  induction items with
  | nil => intro acc gs h hnd; cases h; exact hnd
  | cons a items ih =>
    intro acc gs h hnd
    unfold group_by_go at h
    cases hk : f a with
    | error e => rw [hk] at h; cases h
    | ok k =>
      rw [hk] at h
      exact ih _ _ h ((insertGroup_keys_nodup acc k a).1 hnd)

/-- A successful partition gives every example a value for the attribute. -/
lemma partition_ok_lookup {data : List LabeledExample} {attr : String}
    {gs : List (String × List LabeledExample)}
    (h : partition_by data attr = .ok gs) :
    ∀ x l, (x, l) ∈ data → ∃ v, List.lookup attr x = some v := by
  intro x l hmem
  obtain ⟨v, hv⟩ := group_by_go_ok_forall _ data [] gs h (x, l) hmem
  have hv2 : (match List.lookup attr x with
      | some v => (.ok v : Except PyErr String)
      | none => .error .keyError) = .ok v := hv
  cases hl : List.lookup attr x with
  | none => rw [hl] at hv2; cases hv2
  | some w => exact ⟨w, rfl⟩

/-- In a successful partition, every example belongs to the group keyed by
its own attribute value. -/
lemma partition_mem_group {data : List LabeledExample} {attr : String}
    {gs : List (String × List LabeledExample)} {v : String}
    (h : partition_by data attr = .ok gs) :
    ∀ x l, (x, l) ∈ data → List.lookup attr x = some v →
      ∃ g, (v, g) ∈ gs ∧ (x, l) ∈ g := by
  intro x l hmem hv
  refine group_by_go_mem _ data [] gs h (x, l) hmem v ?_
  show (match List.lookup attr x with
      | some v => (.ok v : Except PyErr String)
      | none => .error .keyError) = .ok v
  rw [hv]

/-- The group keys of a successful partition are distinct. -/
lemma partition_keys_nodup {data : List LabeledExample} {attr : String}
    {gs : List (String × List LabeledExample)}
    (h : partition_by data attr = .ok gs) : (gs.map Prod.fst).Nodup :=
  group_by_go_keys_nodup _ data [] gs h List.nodup_nil

/-- With distinct keys, the dict walk of classify lands exactly on the
subtree stored under the key. -/
lemma classifyList_of_mem (input : AttrMap) :
    ∀ (dict : List (Option String × Tree)) (key : Option String) (tv : Tree),
      (dict.map Prod.fst).Nodup → (key, tv) ∈ dict →
      classifyList dict key input = classify tv input := by
  intro dict
  induction dict with
  | nil => intro key tv _ hmem; cases hmem
  | cons p rest ih =>
    intro key tv hnd hmem
    rcases List.mem_cons.mp hmem with heq | hmem2
    · cases heq
      unfold classifyList
      rw [if_pos (beq_self_eq_true key)]
    · by_cases hk : (p.1 == key) = true
      · exfalso
        have hkey : key ∈ rest.map Prod.fst := by
          have : (key, tv).1 ∈ rest.map Prod.fst :=
            List.mem_map_of_mem Prod.fst hmem2
          simpa using this
        rw [List.map_cons, List.nodup_cons] at hnd
        exact hnd.1 (eq_of_beq hk ▸ hkey)
      · unfold classifyList
        rw [if_neg hk]
        rw [List.map_cons, List.nodup_cons] at hnd
        exact ih key tv hnd.2 hmem2

/-- The keys of the subtrees the build recursion maps over the partitions
are exactly the partition keys wrapped in some. -/
lemma mapExcept_subtree_keys {n : Nat} {newc : List String}
    {partitions : List (String × List LabeledExample)}
    {subtrees : List (Option String × Tree)}
    (hm : mapExcept (fun p =>
        (buildFuel n newc p.2).map
          (fun t => ((some p.1 : Option String), t))) partitions =
      .ok subtrees) :
    subtrees.map Prod.fst = (partitions.map Prod.fst).map some := by
  have hf := mapExcept_ok_forall₂ _ partitions subtrees hm
  clear hm
  induction hf with
  | nil => rfl
  | @cons q y l1 l2 hr _ ih =>
    have hy : y.1 = some q.1 := by
      cases hbq : buildFuel n newc q.2 with
      | error e => rw [hbq] at hr; cases hr
      | ok tq =>
        rw [hbq] at hr
        simp only [map_ok] at hr
        cases hr
        rfl
    rw [List.map_cons, List.map_cons, List.map_cons, ih, hy]

/-- Training-set fit of the build recursion: when every terminal reached is
a same-label leaf, each training example classifies back to its own label. -/
lemma buildFuel_pure_fit : ∀ (n : Nat) (cands : List String)
    (data : List LabeledExample) (t : Tree),
    PureBuild cands data → buildFuel n cands data = .ok t →
    ∀ x l, (x, l) ∈ data → classify t x = .ok l := by
  intro n
  induction n with
  | zero => intro cands data t _ hb; cases hb
  | succ n ih =>
    intro cands data t hp hb x l hmem
    cases hp with
    | allFalse _ _ h0 =>
      unfold buildFuel at hb
      rw [if_pos h0] at hb
      cases hb
      rw [num_trues_zero h0 x l hmem]
      rfl
    | allTrue _ _ h1 =>
      by_cases h0 : num_trues data = 0
      · exfalso
        have hlen : data.length = 0 := by
          unfold num_falses at h1
          omega
        rw [List.length_eq_zero] at hlen
        rw [hlen] at hmem
        cases hmem
      · unfold buildFuel at hb
        rw [if_neg h0, if_pos h1] at hb
        cases hb
        rw [num_falses_zero h1 x l hmem]
        rfl
    | split _ _ best partitions ht hf hbest hpart hrec =>
      unfold buildFuel at hb
      split at hb
      · rename_i h0; exact absurd h0 ht
      split at hb
      · rename_i hemp
        rw [List.isEmpty_iff] at hemp
        subst hemp
        unfold bestAttribute at hbest
        cases hbest
      split at hb
      · rename_i e heq; rw [hbest] at heq; cases heq
      rename_i bestq heq
      rw [hbest] at heq
      injection heq with heqb
      subst heqb
      split at hb
      · rename_i e heq2; rw [hpart] at heq2; cases heq2
      rename_i partq heq2
      rw [hpart] at heq2
      injection heq2 with heqp
      subst heqp
      split at hb
      · cases hb
      rename_i subtrees hm
      cases hb
      · obtain ⟨v, hv⟩ := partition_ok_lookup hpart x l hmem
        obtain ⟨g, hg, hxg⟩ := partition_mem_group hpart x l hmem hv
        obtain ⟨y, hy, hye⟩ :=
          forall₂_mem_left (mapExcept_ok_forall₂ _ partitions subtrees hm)
            (v, g) hg
        cases hbg : buildFuel n (cands.filter (fun s => s != best)) g with
        | error e => rw [hbg] at hye; cases hye
        | ok tv =>
          rw [hbg] at hye
          simp only [map_ok] at hye
          cases hye
          have hdict : ((subtrees ++
              [((none : Option String),
                Tree.leaf (decide (num_falses data < num_trues data)))]).map
                  Prod.fst).Nodup := by
            rw [List.map_append]
            rw [mapExcept_subtree_keys hm]
            rw [List.nodup_append]
            refine ⟨(partition_keys_nodup hpart).map
              (Option.some_injective String), by simp, ?_⟩
            intro k hk1 hk2
            simp at hk2
            rw [hk2] at hk1
            simp at hk1
          have hcl : classify (.node best (subtrees ++
              [((none : Option String),
                Tree.leaf (decide (num_falses data < num_trues data)))])) x =
              classifyList (subtrees ++
                [((none : Option String),
                  Tree.leaf (decide (num_falses data < num_trues data)))])
                (if (subtrees ++
                  [((none : Option String),
                    Tree.leaf (decide (num_falses data < num_trues data)))]).any
                    (fun p => p.1 == List.lookup best x)
                  then List.lookup best x else none) x := rfl
          have hany : (subtrees ++
              [((none : Option String),
                Tree.leaf (decide (num_falses data < num_trues data)))]).any
                (fun p => p.1 == List.lookup best x) = true := by
            rw [List.any_eq_true]
            refine ⟨(some v, tv), List.mem_append_left _ hy, ?_⟩
            rw [hv]
            exact beq_self_eq_true (some v)
          rw [hcl, if_pos hany, hv]
          rw [classifyList_of_mem x _ (some v) tv hdict
            (List.mem_append_left _ hy)]
          exact ih _ _ _ (hrec (v, g) hg) hbg x l hxg

/-- Claim C1: for a training set whose build stops only in same-label
leaves (PureBuild), the tree build_tree_id3 returns classifies every
training example to its original label. -/
theorem c1_training_fit (data : List LabeledExample) (t : Tree)
    (hp : PureBuild (firstKeys data) data)
    (hb : build_tree_id3 data none = .ok t) :
    ∀ x l, (x, l) ∈ data → classify t x = .ok l := by
  unfold build_tree_id3 at hb
  cases data with
  | nil => cases hb
  | cons a rest => exact buildFuel_pure_fit _ _ _ _ hp hb

/-- Claim C1 (witness): the two-row tie dataset builds purely (both
partition groups are single-label) and classifies each training row back to
its own label. -/
theorem c1_witness :
    classify tieTree [("a", "x")] = .ok true ∧
      classify tieTree [("a", "y")] = .ok false := by
  have hpure : PureBuild (firstKeys tieInputs) tieInputs := by
    refine PureBuild.split _ _ "a"
      [("x", [([("a", "x")], true)]), ("y", [([("a", "y")], false)])]
      (by decide) (by decide) ?_ (by rfl) ?_
    · rfl
    · intro p hp
      rcases List.mem_cons.mp hp with rfl | hp2
      · exact PureBuild.allTrue _ _ (by decide)
      · rcases List.mem_cons.mp hp2 with rfl | hp3
        · exact PureBuild.allFalse _ _ (by decide)
        · cases hp3
  exact ⟨c1_training_fit tieInputs tieTree hpure build_tie
      [("a", "x")] true (by simp [tieInputs]),
    c1_training_fit tieInputs tieTree hpure build_tie
      [("a", "y")] false (by simp [tieInputs])⟩

/-- Entropy of the empty probability list. -/
lemma entropy_nil : entropy [] = 0 := rfl

/-- Entropy peels off a nonzero head probability. -/
lemma entropy_cons_ne (p : ℝ) (ps : List ℝ) (hp : p ≠ 0) :
    entropy (p :: ps) = -p * Real.logb 2 p + entropy ps := by
  unfold entropy
  rw [List.filter_cons, if_pos (by simpa using hp), List.map_cons,
    List.sum_cons]

/-- Closed form of the entropy of a two-class distribution with positive
class weights a and b. -/
lemma entropy_pair (a b : ℝ) (ha : 0 < a) (hb : 0 < b) :
    entropy [a / (a + b), b / (a + b)] =
      ((a + b) * Real.log (a + b) - a * Real.log a - b * Real.log b) /
        ((a + b) * Real.log 2) := by
  have hab : (0:ℝ) < a + b := by linarith
  rw [entropy_cons_ne _ _ (ne_of_gt (div_pos ha hab)),
    entropy_cons_ne _ _ (ne_of_gt (div_pos hb hab)), entropy_nil]
  simp only [Real.logb]
  rw [Real.log_div ha.ne' hab.ne', Real.log_div hb.ne' hab.ne']
  have h2 : Real.log 2 ≠ 0 := (Real.log_pos one_lt_two).ne'
  field_simp
  ring

/-- Membership in the counterKeys fold is membership in the accumulator or
the list. -/
lemma counterKeys_go_mem : ∀ (l acc : List Bool) (b : Bool),
    (b ∈ l.foldl (fun acc a => if a ∈ acc then acc else acc ++ [a]) acc ↔
      b ∈ acc ∨ b ∈ l) := by
  intro l
  induction l with
  | nil => intro acc b; simp
  | cons a l ih =>
    intro acc b
    rw [List.foldl_cons]
    by_cases h : a ∈ acc
    · rw [if_pos h, ih]
      constructor
      · rintro (h1 | h1)
        · exact Or.inl h1
        · exact Or.inr (List.mem_cons_of_mem _ h1)
      · rintro (h1 | h1)
        · exact Or.inl h1
        · rcases List.mem_cons.mp h1 with rfl | h2
          · exact Or.inl h
          · exact Or.inr h2
    · rw [if_neg h, ih]
      simp only [List.mem_append, List.mem_cons, List.mem_singleton]
      tauto

/-- The Counter keys are exactly the values occurring in the list. -/
lemma counterKeys_mem (l : List Bool) (b : Bool) :
    b ∈ counterKeys l ↔ b ∈ l := by
  unfold counterKeys
  rw [counterKeys_go_mem]
  simp

/-- Closed form of data_entropy for a two-class label multiset with counts
a and b. -/
lemma data_entropy_two (rows : List LabeledExample) (x y : Bool) (a b : ℕ)
    (hk : counterKeys (rows.map Prod.snd) = [x, y])
    (hcx : (rows.map Prod.snd).count x = a)
    (hcy : (rows.map Prod.snd).count y = b)
    (hlen : rows.length = a + b)
    (ha : 0 < a) (hb : 0 < b) :
    data_entropy rows =
      (((a:ℝ) + b) * Real.log ((a:ℝ) + b) - a * Real.log a -
        b * Real.log b) / (((a:ℝ) + b) * Real.log 2) := by
  unfold data_entropy class_probabilities
  rw [hk, List.map_cons, List.map_cons, List.map_nil, hcx, hcy,
    List.length_map, hlen]
  rw [show ((a + b : ℕ) : ℝ) = (a:ℝ) + b by push_cast; ring]
  exact entropy_pair a b (by exact_mod_cast ha) (by exact_mod_cast hb)

/-- Single-label example sets have zero data_entropy. -/
lemma data_entropy_pure (rows : List LabeledExample) (x : Bool)
    (hk : counterKeys (rows.map Prod.snd) = [x]) (hne : rows.length ≠ 0) :
    data_entropy rows = 0 := by
  unfold data_entropy class_probabilities
  rw [hk, List.map_cons, List.map_nil]
  have hall : ∀ b ∈ rows.map Prod.snd, x = b := by
    intro b hb
    have hmem := (counterKeys_mem (rows.map Prod.snd) b).mpr hb
    rw [hk] at hmem
    simp at hmem
    exact hmem.symm
  have hcnt : List.count x (rows.map Prod.snd) = (rows.map Prod.snd).length :=
    List.count_eq_length.mpr hall
  rw [hcnt, List.length_map]
  have hl : ((rows.length : ℕ) : ℝ) ≠ 0 := by exact_mod_cast hne
  rw [div_self hl, entropy_cons_ne _ _ one_ne_zero, entropy_nil]
  simp [Real.logb]

/-- Expansion of log 4 over the prime 2. -/
lemma log4_eq : Real.log 4 = 2 * Real.log 2 := by
  rw [show (4:ℝ) = 2 ^ 2 by norm_num, Real.log_pow]
  norm_num

/-- Expansion of log 6 over the primes 2 and 3. -/
lemma log6_eq : Real.log 6 = Real.log 2 + Real.log 3 := by
  rw [show (6:ℝ) = 2 * 3 by norm_num,
    Real.log_mul (by norm_num) (by norm_num)]

/-- Expansion of log 8 over the prime 2. -/
lemma log8_eq : Real.log 8 = 3 * Real.log 2 := by
  rw [show (8:ℝ) = 2 ^ 3 by norm_num, Real.log_pow]
  norm_num

/-- Partition entropy of the hiring data by level, in closed form. -/
lemma pe_level : partition_entropy_by inputs "level" =
    .ok ((10 * Real.log 5 - 6 * Real.log 3 - 4 * Real.log 2) /
      (14 * Real.log 2)) := by
  have hpb : partition_by inputs "level" =
      .ok [("Senior", seniorRows), ("Mid", midRows), ("Junior", juniorRows)] := rfl
  unfold partition_entropy_by
  rw [hpb, map_ok]
  congr 1
  rw [show ([("Senior", seniorRows), ("Mid", midRows),
      ("Junior", juniorRows)].map Prod.snd) =
    [seniorRows, midRows, juniorRows] from rfl]
  have hS : data_entropy seniorRows =
      (5 * Real.log 5 - 3 * Real.log 3 - 2 * Real.log 2) /
        (5 * Real.log 2) := by
    have h := data_entropy_two seniorRows false true 3 2 rfl rfl rfl rfl
      (by norm_num) (by norm_num)
    norm_num at h
    exact h
  have hM : data_entropy midRows = 0 :=
    data_entropy_pure midRows true rfl (by decide)
  have hJ : data_entropy juniorRows =
      (5 * Real.log 5 - 3 * Real.log 3 - 2 * Real.log 2) /
        (5 * Real.log 2) := by
    have h := data_entropy_two juniorRows true false 3 2 rfl rfl rfl rfl
      (by norm_num) (by norm_num)
    norm_num at h
    exact h
  unfold partition_entropy
  simp only [List.map_cons, List.map_nil, List.sum_cons, List.sum_nil]
  rw [hS, hM, hJ]
  norm_num [show seniorRows.length = 5 from rfl,
    show midRows.length = 4 from rfl, show juniorRows.length = 5 from rfl]
  have h2 : Real.log 2 ≠ 0 := (Real.log_pos one_lt_two).ne'
  field_simp
  ring

/-- Partition entropy of the hiring data by lang, in closed form. -/
lemma pe_lang : partition_entropy_by inputs "lang" =
    .ok ((7 * Real.log 7 + 4 * Real.log 2 - 5 * Real.log 5) /
      (14 * Real.log 2)) := by
  have hpb : partition_by inputs "lang" =
      .ok [("Java", [r1, r2, r13]),
        ("Python", [r3, r4, r8, r10, r11, r12, r14]),
        ("R", [r5, r6, r7, r9])] := rfl
  unfold partition_entropy_by
  rw [hpb, map_ok]
  congr 1
  rw [show ([("Java", [r1, r2, r13]),
      ("Python", [r3, r4, r8, r10, r11, r12, r14]),
      ("R", [r5, r6, r7, r9])].map Prod.snd) =
    [[r1, r2, r13], [r3, r4, r8, r10, r11, r12, r14],
      [r5, r6, r7, r9]] from rfl]
  have hJa : data_entropy [r1, r2, r13] =
      (3 * Real.log 3 - 2 * Real.log 2) / (3 * Real.log 2) := by
    have h := data_entropy_two [r1, r2, r13] false true 2 1 rfl rfl rfl rfl
      (by norm_num) (by norm_num)
    norm_num [Real.log_one] at h
    exact h
  have hPy : data_entropy [r3, r4, r8, r10, r11, r12, r14] =
      (7 * Real.log 7 - 5 * Real.log 5 - 2 * Real.log 2) /
        (7 * Real.log 2) := by
    have h := data_entropy_two [r3, r4, r8, r10, r11, r12, r14] true false
      5 2 rfl rfl rfl rfl (by norm_num) (by norm_num)
    norm_num at h
    exact h
  have hR : data_entropy [r5, r6, r7, r9] =
      (4 * Real.log 4 - 3 * Real.log 3) / (4 * Real.log 2) := by
    have h := data_entropy_two [r5, r6, r7, r9] true false 3 1 rfl rfl rfl
      rfl (by norm_num) (by norm_num)
    norm_num [Real.log_one] at h
    exact h
  unfold partition_entropy
  simp only [List.map_cons, List.map_nil, List.sum_cons, List.sum_nil]
  rw [hJa, hPy, hR, log4_eq]
  norm_num
  have h2 : Real.log 2 ≠ 0 := (Real.log_pos one_lt_two).ne'
  field_simp
  ring

/-- Partition entropy of the hiring data by tweets, in closed form. -/
lemma pe_tweets : partition_entropy_by inputs "tweets" =
    .ok ((14 * Real.log 7 - 14 * Real.log 2 - 9 * Real.log 3) /
      (14 * Real.log 2)) := by
  have hpb : partition_by inputs "tweets" =
      .ok [("no", [r1, r2, r3, r4, r8, r12, r14]),
        ("yes", [r5, r6, r7, r9, r10, r11, r13])] := rfl
  unfold partition_entropy_by
  rw [hpb, map_ok]
  congr 1
  rw [show ([("no", [r1, r2, r3, r4, r8, r12, r14]),
      ("yes", [r5, r6, r7, r9, r10, r11, r13])].map Prod.snd) =
    [[r1, r2, r3, r4, r8, r12, r14], [r5, r6, r7, r9, r10, r11, r13]]
    from rfl]
  have hNo : data_entropy [r1, r2, r3, r4, r8, r12, r14] =
      (7 * Real.log 7 - 4 * Real.log 4 - 3 * Real.log 3) /
        (7 * Real.log 2) := by
    have h := data_entropy_two [r1, r2, r3, r4, r8, r12, r14] false true
      4 3 rfl rfl rfl rfl (by norm_num) (by norm_num)
    norm_num at h
    exact h
  have hYes : data_entropy [r5, r6, r7, r9, r10, r11, r13] =
      (7 * Real.log 7 - 6 * Real.log 6) / (7 * Real.log 2) := by
    have h := data_entropy_two [r5, r6, r7, r9, r10, r11, r13] true false
      6 1 rfl rfl rfl rfl (by norm_num) (by norm_num)
    norm_num [Real.log_one] at h
    exact h
  unfold partition_entropy
  simp only [List.map_cons, List.map_nil, List.sum_cons, List.sum_nil]
  rw [hNo, hYes, log4_eq, log6_eq]
  norm_num
  have h2 : Real.log 2 ≠ 0 := (Real.log_pos one_lt_two).ne'
  field_simp
  ring

/-- Partition entropy of the hiring data by phd, in closed form. -/
lemma pe_phd : partition_entropy_by inputs "phd" =
    .ok ((22 * Real.log 2 - 6 * Real.log 3) / (14 * Real.log 2)) := by
  have hpb : partition_by inputs "phd" =
      .ok [("no", [r1, r3, r4, r5, r8, r9, r10, r13]),
        ("yes", [r2, r6, r7, r11, r12, r14])] := rfl
  unfold partition_entropy_by
  rw [hpb, map_ok]
  congr 1
  rw [show ([("no", [r1, r3, r4, r5, r8, r9, r10, r13]),
      ("yes", [r2, r6, r7, r11, r12, r14])].map Prod.snd) =
    [[r1, r3, r4, r5, r8, r9, r10, r13], [r2, r6, r7, r11, r12, r14]]
    from rfl]
  have hNo : data_entropy [r1, r3, r4, r5, r8, r9, r10, r13] =
      (8 * Real.log 8 - 2 * Real.log 2 - 6 * Real.log 6) /
        (8 * Real.log 2) := by
    have h := data_entropy_two [r1, r3, r4, r5, r8, r9, r10, r13] false true
      2 6 rfl rfl rfl rfl (by norm_num) (by norm_num)
    norm_num at h
    exact h
  have hYes : data_entropy [r2, r6, r7, r11, r12, r14] =
      (6 * Real.log 6 - 3 * Real.log 3 - 3 * Real.log 3) /
        (6 * Real.log 2) := by
    have h := data_entropy_two [r2, r6, r7, r11, r12, r14] false true
      3 3 rfl rfl rfl rfl (by norm_num) (by norm_num)
    norm_num at h
    exact h
  unfold partition_entropy
  simp only [List.map_cons, List.map_nil, List.sum_cons, List.sum_nil]
  rw [hNo, hYes, log8_eq, log6_eq]
  norm_num
  have h2 : Real.log 2 ≠ 0 := (Real.log_pos one_lt_two).ne'
  field_simp
  ring

/-- The mixed two-example set [r8, r11] has entropy one. -/
lemma de_r8_r11 : data_entropy [r8, r11] = 1 := by
  have h := data_entropy_two [r8, r11] false true 1 1 rfl rfl rfl rfl
    (by norm_num) (by norm_num)
  norm_num [Real.log_one] at h
  exact h

/-- Partition entropy of the Senior rows by lang. -/
lemma pe_s_lang : partition_entropy_by seniorRows "lang" =
    .ok ((2:ℝ) / 5) := by
  have hpb : partition_by seniorRows "lang" =
      .ok [("Java", [r1, r2]), ("Python", [r8, r11]), ("R", [r9])] := rfl
  unfold partition_entropy_by
  rw [hpb, map_ok]
  congr 1
  rw [show ([("Java", [r1, r2]), ("Python", [r8, r11]),
      ("R", [r9])].map Prod.snd) = [[r1, r2], [r8, r11], [r9]] from rfl]
  have hJa : data_entropy [r1, r2] = 0 :=
    data_entropy_pure [r1, r2] false rfl (by decide)
  have hR : data_entropy [r9] = 0 :=
    data_entropy_pure [r9] true rfl (by decide)
  unfold partition_entropy
  simp only [List.map_cons, List.map_nil, List.sum_cons, List.sum_nil]
  rw [hJa, de_r8_r11, hR]
  norm_num

/-- Partition entropy of the Senior rows by tweets: both groups are pure. -/
lemma pe_s_tweets : partition_entropy_by seniorRows "tweets" =
    .ok (0:ℝ) := by
  have hpb : partition_by seniorRows "tweets" =
      .ok [("no", [r1, r2, r8]), ("yes", [r9, r11])] := rfl
  unfold partition_entropy_by
  rw [hpb, map_ok]
  congr 1
  rw [show ([("no", [r1, r2, r8]), ("yes", [r9, r11])].map Prod.snd) =
    [[r1, r2, r8], [r9, r11]] from rfl]
  have hNo : data_entropy [r1, r2, r8] = 0 :=
    data_entropy_pure [r1, r2, r8] false rfl (by decide)
  have hYes : data_entropy [r9, r11] = 0 :=
    data_entropy_pure [r9, r11] true rfl (by decide)
  unfold partition_entropy
  simp only [List.map_cons, List.map_nil, List.sum_cons, List.sum_nil]
  rw [hNo, hYes]
  norm_num

/-- Partition entropy of the Senior rows by phd. -/
lemma pe_s_phd : partition_entropy_by seniorRows "phd" =
    .ok ((3 * Real.log 3) / (5 * Real.log 2)) := by
  have hpb : partition_by seniorRows "phd" =
      .ok [("no", [r1, r8, r9]), ("yes", [r2, r11])] := rfl
  unfold partition_entropy_by
  rw [hpb, map_ok]
  congr 1
  rw [show ([("no", [r1, r8, r9]), ("yes", [r2, r11])].map Prod.snd) =
    [[r1, r8, r9], [r2, r11]] from rfl]
  have hNo : data_entropy [r1, r8, r9] =
      (3 * Real.log 3 - 2 * Real.log 2) / (3 * Real.log 2) := by
    have h := data_entropy_two [r1, r8, r9] false true 2 1 rfl rfl rfl rfl
      (by norm_num) (by norm_num)
    norm_num [Real.log_one] at h
    exact h
  have hYes : data_entropy [r2, r11] = 1 := by
    have h := data_entropy_two [r2, r11] false true 1 1 rfl rfl rfl rfl
      (by norm_num) (by norm_num)
    norm_num [Real.log_one] at h
    exact h
  unfold partition_entropy
  simp only [List.map_cons, List.map_nil, List.sum_cons, List.sum_nil]
  rw [hNo, hYes]
  norm_num
  have h2 : Real.log 2 ≠ 0 := (Real.log_pos one_lt_two).ne'
  field_simp
  ring

/-- Partition entropy of the Junior rows by lang. -/
lemma pe_j_lang : partition_entropy_by juniorRows "lang" =
    .ok ((3 * Real.log 3) / (5 * Real.log 2)) := by
  have hpb : partition_by juniorRows "lang" =
      .ok [("Python", [r4, r10, r14]), ("R", [r5, r6])] := rfl
  unfold partition_entropy_by
  rw [hpb, map_ok]
  congr 1
  rw [show ([("Python", [r4, r10, r14]), ("R", [r5, r6])].map Prod.snd) =
    [[r4, r10, r14], [r5, r6]] from rfl]
  have hPy : data_entropy [r4, r10, r14] =
      (3 * Real.log 3 - 2 * Real.log 2) / (3 * Real.log 2) := by
    have h := data_entropy_two [r4, r10, r14] true false 2 1 rfl rfl rfl rfl
      (by norm_num) (by norm_num)
    norm_num [Real.log_one] at h
    exact h
  have hR : data_entropy [r5, r6] = 1 := by
    have h := data_entropy_two [r5, r6] true false 1 1 rfl rfl rfl rfl
      (by norm_num) (by norm_num)
    norm_num [Real.log_one] at h
    exact h
  unfold partition_entropy
  simp only [List.map_cons, List.map_nil, List.sum_cons, List.sum_nil]
  rw [hPy, hR]
  norm_num
  have h2 : Real.log 2 ≠ 0 := (Real.log_pos one_lt_two).ne'
  field_simp
  ring

/-- Partition entropy of the Junior rows by tweets: the same value as by
lang. -/
lemma pe_j_tweets : partition_entropy_by juniorRows "tweets" =
    .ok ((3 * Real.log 3) / (5 * Real.log 2)) := by
  have hpb : partition_by juniorRows "tweets" =
      .ok [("no", [r4, r14]), ("yes", [r5, r6, r10])] := rfl
  unfold partition_entropy_by
  rw [hpb, map_ok]
  congr 1
  rw [show ([("no", [r4, r14]), ("yes", [r5, r6, r10])].map Prod.snd) =
    [[r4, r14], [r5, r6, r10]] from rfl]
  have hNo : data_entropy [r4, r14] = 1 := by
    have h := data_entropy_two [r4, r14] true false 1 1 rfl rfl rfl rfl
      (by norm_num) (by norm_num)
    norm_num [Real.log_one] at h
    exact h
  have hYes : data_entropy [r5, r6, r10] =
      (3 * Real.log 3 - 2 * Real.log 2) / (3 * Real.log 2) := by
    have h := data_entropy_two [r5, r6, r10] true false 2 1 rfl rfl rfl rfl
      (by norm_num) (by norm_num)
    norm_num [Real.log_one] at h
    exact h
  unfold partition_entropy
  simp only [List.map_cons, List.map_nil, List.sum_cons, List.sum_nil]
  rw [hNo, hYes]
  norm_num
  have h2 : Real.log 2 ≠ 0 := (Real.log_pos one_lt_two).ne'
  field_simp
  ring

/-- Partition entropy of the Junior rows by phd: both groups are pure. -/
lemma pe_j_phd : partition_entropy_by juniorRows "phd" = .ok (0:ℝ) := by
  have hpb : partition_by juniorRows "phd" =
      .ok [("no", [r4, r5, r10]), ("yes", [r6, r14])] := rfl
  unfold partition_entropy_by
  rw [hpb, map_ok]
  congr 1
  rw [show ([("no", [r4, r5, r10]), ("yes", [r6, r14])].map Prod.snd) =
    [[r4, r5, r10], [r6, r14]] from rfl]
  have hNo : data_entropy [r4, r5, r10] = 0 :=
    data_entropy_pure [r4, r5, r10] true rfl (by decide)
  have hYes : data_entropy [r6, r14] = 0 :=
    data_entropy_pure [r6, r14] false rfl (by decide)
  unfold partition_entropy
  simp only [List.map_cons, List.map_nil, List.sum_cons, List.sum_nil]
  rw [hNo, hYes]
  norm_num

/-- Splitting on level beats splitting on lang: the comparison reduces to
the integer inequality 5^15 < 7^7 * 2^8 * 3^6. -/
lemma cmp_root_lang :
    (10 * Real.log 5 - 6 * Real.log 3 - 4 * Real.log 2) /
      (14 * Real.log 2) <
    (7 * Real.log 7 + 4 * Real.log 2 - 5 * Real.log 5) /
      (14 * Real.log 2) := by
  have hd : (0:ℝ) < 14 * Real.log 2 := by positivity
  rw [div_lt_div_iff₀ hd hd]
  have h1 : (5:ℝ)^15 < 7^7 * 2^8 * 3^6 := by norm_num
  have h2 := Real.log_lt_log (by positivity) h1
  rw [Real.log_pow, Real.log_mul (by positivity) (by positivity),
    Real.log_mul (by positivity) (by positivity), Real.log_pow,
    Real.log_pow, Real.log_pow] at h2
  push_cast at h2
  have hS : 10 * Real.log 5 - 6 * Real.log 3 - 4 * Real.log 2 <
      7 * Real.log 7 + 4 * Real.log 2 - 5 * Real.log 5 := by linarith
  exact mul_lt_mul_of_pos_right hS hd

/-- Splitting on level beats splitting on tweets: reduces to
5^10 * 3^3 * 2^10 < 7^14. -/
lemma cmp_root_tweets :
    (10 * Real.log 5 - 6 * Real.log 3 - 4 * Real.log 2) /
      (14 * Real.log 2) <
    (14 * Real.log 7 - 14 * Real.log 2 - 9 * Real.log 3) /
      (14 * Real.log 2) := by
  have hd : (0:ℝ) < 14 * Real.log 2 := by positivity
  rw [div_lt_div_iff₀ hd hd]
  have h1 : (5:ℝ)^10 * 3^3 * 2^10 < 7^14 := by norm_num
  have h2 := Real.log_lt_log (by positivity) h1
  rw [Real.log_pow, Real.log_mul (by positivity) (by positivity),
    Real.log_mul (by positivity) (by positivity), Real.log_pow,
    Real.log_pow, Real.log_pow] at h2
  push_cast at h2
  have hS : 10 * Real.log 5 - 6 * Real.log 3 - 4 * Real.log 2 <
      14 * Real.log 7 - 14 * Real.log 2 - 9 * Real.log 3 := by linarith
  exact mul_lt_mul_of_pos_right hS hd

/-- Splitting on level beats splitting on phd: reduces to 5^10 < 2^26. -/
lemma cmp_root_phd :
    (10 * Real.log 5 - 6 * Real.log 3 - 4 * Real.log 2) /
      (14 * Real.log 2) <
    (22 * Real.log 2 - 6 * Real.log 3) / (14 * Real.log 2) := by
  have hd : (0:ℝ) < 14 * Real.log 2 := by positivity
  rw [div_lt_div_iff₀ hd hd]
  have h1 : (5:ℝ)^10 < 2^26 := by norm_num
  have h2 := Real.log_lt_log (by positivity) h1
  rw [Real.log_pow, Real.log_pow] at h2
  push_cast at h2
  have hS : 10 * Real.log 5 - 6 * Real.log 3 - 4 * Real.log 2 <
      22 * Real.log 2 - 6 * Real.log 3 := by linarith
  exact mul_lt_mul_of_pos_right hS hd

/-- Head step of the Python min over candidate attributes. -/
lemma bestAttribute_cons (data : List LabeledExample) (c : String)
    (rest : List String) (v : ℝ)
    (hc : partition_entropy_by data c = .ok v) :
    bestAttribute data (c :: rest) =
      (rest.foldlM (fun best a => do
        let ka ← partition_entropy_by data a
        pure (if ka < best.2 then (a, ka) else best)) (c, v)) >>=
        fun r => pure r.1 := by
  unfold bestAttribute
  dsimp only
  rw [hc]
  rfl

/-- One comparison step of the Python min over candidate attributes. -/
lemma bestAttribute_step (data : List LabeledExample) (best : String × ℝ)
    (a : String) (rest : List String) (va : ℝ)
    (ha : partition_entropy_by data a = .ok va) :
    ((a :: rest).foldlM (fun best a => do
        let ka ← partition_entropy_by data a
        pure (if ka < best.2 then (a, ka) else best)) best) =
      (rest.foldlM (fun best a => do
        let ka ← partition_entropy_by data a
        pure (if ka < best.2 then (a, ka) else best))
        (if va < best.2 then (a, va) else best)) := by
  rw [List.foldlM_cons, ha]
  rfl

/-- The root split of the hiring dataset chooses level: it has the strictly
lowest partition entropy among the four attributes, and min keeps it. -/
lemma best_root :
    bestAttribute inputs ["level", "lang", "tweets", "phd"] = .ok "level" := by
  rw [bestAttribute_cons inputs "level" ["lang", "tweets", "phd"] _ pe_level]
  rw [bestAttribute_step inputs _ "lang" _ _ pe_lang]
  rw [if_neg (lt_asymm cmp_root_lang)]
  rw [bestAttribute_step inputs _ "tweets" _ _ pe_tweets]
  rw [if_neg (lt_asymm cmp_root_tweets)]
  rw [bestAttribute_step inputs _ "phd" _ _ pe_phd]
  rw [if_neg (lt_asymm cmp_root_phd)]
  rfl

/-- The Senior subtree chooses tweets (partition entropy zero). -/
lemma best_senior :
    bestAttribute seniorRows ["lang", "tweets", "phd"] = .ok "tweets" := by
  rw [bestAttribute_cons seniorRows "lang" ["tweets", "phd"] _ pe_s_lang]
  rw [bestAttribute_step seniorRows _ "tweets" _ _ pe_s_tweets]
  rw [if_pos (by norm_num : (0:ℝ) < ("lang", (2:ℝ)/5).2)]
  rw [bestAttribute_step seniorRows _ "phd" _ _ pe_s_phd]
  rw [if_neg (not_lt.mpr (by positivity :
    ((0:ℝ)) ≤ (3 * Real.log 3) / (5 * Real.log 2)))]
  rfl

/-- The Junior subtree chooses phd: lang comes first, tweets only equals it
(min keeps the earlier attribute), and phd's zero entropy wins. -/
lemma best_junior :
    bestAttribute juniorRows ["lang", "tweets", "phd"] = .ok "phd" := by
  rw [bestAttribute_cons juniorRows "lang" ["tweets", "phd"] _ pe_j_lang]
  rw [bestAttribute_step juniorRows _ "tweets" _ _ pe_j_tweets]
  rw [if_neg (lt_irrefl ((3 * Real.log 3) / (5 * Real.log 2)))]
  rw [bestAttribute_step juniorRows _ "phd" _ _ pe_j_phd]
  rw [if_pos (by positivity :
    (0:ℝ) < (3 * Real.log 3) / (5 * Real.log 2))]
  rfl

/-- Evaluation scaffold for one unfolding of buildFuel at a decision node
with a known best attribute; the remaining computation is handed over as a
definitional equality. -/
lemma buildFuel_succ_eval (fuel : Nat) (cands : List String)
    (data : List LabeledExample) (best : String)
    (result : Except PyErr Tree)
    (ht : ¬ num_trues data = 0) (hf : ¬ num_falses data = 0)
    (hne : ¬ cands.isEmpty = true)
    (hb : bestAttribute data cands = .ok best)
    (hrest : (match partition_by data best with
      | .error e => .error e
      | .ok partitions =>
        match mapExcept (fun p =>
            (buildFuel fuel (cands.filter (fun a => a != best)) p.2).map
              (fun t => ((some p.1 : Option String), t))) partitions with
        | .error e => .error e
        | .ok subtrees =>
          .ok (.node best (subtrees ++
            [((none : Option String),
              .leaf (decide (num_falses data < num_trues data)))]))) =
      result) :
    buildFuel (fuel + 1) cands data = result := by
  unfold buildFuel
  rw [if_neg ht, if_neg hf, if_neg hne, hb]
  exact hrest

/-- The Senior branch of the hiring tree, as built by the recursion. -/
lemma build_senior : buildFuel 4 ["lang", "tweets", "phd"] seniorRows =
    .ok (.node "tweets" [(some "no", .leaf false), (some "yes", .leaf true),
      (none, .leaf false)]) :=
  buildFuel_succ_eval 3 _ _ "tweets" _ (by decide) (by decide) (by decide)
    best_senior rfl

/-- The Mid branch of the hiring tree: all labels true. -/
lemma build_mid : buildFuel 4 ["lang", "tweets", "phd"] midRows =
    .ok (.leaf true) := rfl

/-- The Junior branch of the hiring tree, as built by the recursion. -/
lemma build_junior : buildFuel 4 ["lang", "tweets", "phd"] juniorRows =
    .ok (.node "phd" [(some "no", .leaf true), (some "yes", .leaf false),
      (none, .leaf true)]) :=
  buildFuel_succ_eval 3 _ _ "phd" _ (by decide) (by decide) (by decide)
    best_junior rfl

/-- The full hiring tree of the worked example, built by the recursion with
level at the root. -/
lemma build_root : buildFuel 5 ["level", "lang", "tweets", "phd"] inputs =
    .ok hiringTree := by
  apply buildFuel_succ_eval 4 _ _ "level" _ (by decide) (by decide)
    (by decide) best_root
  rw [show partition_by inputs "level" =
    .ok [("Senior", seniorRows), ("Mid", midRows), ("Junior", juniorRows)]
    from rfl]
  dsimp only
  simp only [show (["level", "lang", "tweets", "phd"].filter
    (fun a => a != "level")) = ["lang", "tweets", "phd"] from rfl]
  simp only [mapExcept, build_senior, build_mid, build_junior, map_ok]
  rfl

/-- Claim C2: building from the 14-row hiring dataset yields the worked
example's tree, which classifies the Junior/Java/tweets/no-phd input True
and the Junior/Java/tweets/phd input False. -/
theorem c2_hiring_example :
    build_tree_id3 inputs none = .ok hiringTree ∧
      classify hiringTree queryNoPhd = .ok true ∧
      classify hiringTree queryPhd = .ok false := by
  refine ⟨?_, rfl, rfl⟩
  exact build_root

/-- A failing group_by loop fails on the key of one of its items. -/
lemma group_by_go_error_kind {α : Type} (key_fn : α → Except PyErr String) :
    ∀ (items : List α) acc e, group_by_go key_fn acc items = .error e →
      ∃ p ∈ items, key_fn p = .error e := by
  intro items
  induction items with
  | nil => intro acc e h; cases h
  | cons a items ih =>
    intro acc e h
    unfold group_by_go at h
    cases hk : key_fn a with
    | error e2 =>
      rw [hk] at h
      injection h with h2
      exact ⟨a, List.mem_cons_self _ _, by rw [hk, h2]⟩
    | ok k =>
      rw [hk] at h
      obtain ⟨p, hp, he⟩ := ih _ e h
      exact ⟨p, List.mem_cons_of_mem _ hp, he⟩

/-- partition_by can only fail with KeyError. -/
lemma partition_by_error {data : List LabeledExample} {attr : String}
    {e : PyErr} (h : partition_by data attr = .error e) : e = .keyError := by
  obtain ⟨p, _, he⟩ := group_by_go_error_kind _ data [] e h
  cases hl : List.lookup attr p.1 with
  | none =>
    have he2 : (Except.error PyErr.keyError : Except PyErr String) =
        .error e := by
      rw [show (Except.error PyErr.keyError : Except PyErr String) =
        (match List.lookup attr p.1 with
          | some v => (.ok v : Except PyErr String)
          | none => .error .keyError) by rw [hl]]
      exact he
    injection he2 with he3
    exact he3.symm
  | some v =>
    have he2 : (Except.ok v : Except PyErr String) = .error e := by
      rw [show (Except.ok v : Except PyErr String) =
        (match List.lookup attr p.1 with
          | some v => (.ok v : Except PyErr String)
          | none => .error .keyError) by rw [hl]]
      exact he
    cases he2

/-- partition_entropy_by can only fail with KeyError. -/
lemma partition_entropy_by_error {data : List LabeledExample}
    {attr : String} {e : PyErr}
    (h : partition_entropy_by data attr = .error e) : e = .keyError := by
  unfold partition_entropy_by at h
  cases hp : partition_by data attr with
  | error e2 =>
    rw [hp] at h
    injection h with h2
    exact h2 ▸ partition_by_error hp
  | ok gs => rw [hp] at h; cases h

/-- The min fold over candidates can only fail with KeyError. -/
lemma bestAttribute_fold_error (data : List LabeledExample) :
    ∀ (rest : List String) (start : String × ℝ) (e : PyErr),
      (rest.foldlM (fun best a => do
        let ka ← partition_entropy_by data a
        pure (if ka < best.2 then (a, ka) else best)) start) = .error e →
      e = .keyError := by
  intro rest
  induction rest with
  | nil => intro start e h; cases h
  | cons a rest ih =>
    intro start e h
    rw [List.foldlM_cons] at h
    cases hk : partition_entropy_by data a with
    | error e2 =>
      rw [hk] at h
      simp only [error_bind] at h
      injection h with h2
      exact h2 ▸ partition_entropy_by_error hk
    | ok va =>
      rw [hk] at h
      simp only [ok_bind, pure_eq_ok] at h
      exact ih _ e h

/-- bestAttribute can only fail with ValueError (empty candidates) or
KeyError (an example missing a candidate attribute). -/
lemma bestAttribute_error {data : List LabeledExample}
    {cands : List String} {e : PyErr}
    (h : bestAttribute data cands = .error e) :
    e = .valueError ∨ e = .keyError := by
  cases cands with
  | nil =>
    unfold bestAttribute at h
    injection h with h2
    exact Or.inl h2.symm
  | cons c rest =>
    unfold bestAttribute at h
    dsimp only at h
    cases hc : partition_entropy_by data c with
    | error e2 =>
      rw [hc] at h
      simp only [error_bind] at h
      injection h with h2
      exact Or.inr (h2 ▸ partition_entropy_by_error hc)
    | ok v =>
      rw [hc] at h
      simp only [ok_bind] at h
      cases hf : (rest.foldlM (fun best a => do
          let ka ← partition_entropy_by data a
          pure (if ka < best.2 then (a, ka) else best)) (c, v)) with
      | error e2 =>
        rw [hf] at h
        simp only [error_bind] at h
        injection h with h2
        exact Or.inr (h2 ▸ bestAttribute_fold_error data rest (c, v) e2 hf)
      | ok r => rw [hf] at h; simp only [ok_bind, pure_eq_ok] at h; cases h

/-- The min fold returns its start attribute or one of the candidates it
folded over. -/
lemma bestAttribute_fold_mem (data : List LabeledExample) :
    ∀ (rest : List String) (start : String × ℝ) (r : String × ℝ),
      (rest.foldlM (fun best a => do
        let ka ← partition_entropy_by data a
        pure (if ka < best.2 then (a, ka) else best)) start) = .ok r →
      r.1 = start.1 ∨ r.1 ∈ rest := by
  intro rest
  induction rest with
  | nil =>
    intro start r h
    cases h
    exact Or.inl rfl
  | cons a rest ih =>
    intro start r h
    rw [List.foldlM_cons] at h
    cases hk : partition_entropy_by data a with
    | error e2 => rw [hk] at h; cases h
    | ok va =>
      rw [hk] at h
      simp only [ok_bind, pure_eq_ok] at h
      rcases ih _ r h with h1 | h1
      · by_cases hlt : va < start.2
        · rw [if_pos hlt] at h1
          exact Or.inr (h1 ▸ List.mem_cons_self _ _)
        · rw [if_neg hlt] at h1
          exact Or.inl h1
      · exact Or.inr (List.mem_cons_of_mem _ h1)

/-- The attribute min selects is one of the candidates. -/
lemma bestAttribute_mem {data : List LabeledExample} {cands : List String}
    {b : String} (h : bestAttribute data cands = .ok b) : b ∈ cands := by
  cases cands with
  | nil => cases h
  | cons c rest =>
    unfold bestAttribute at h
    dsimp only at h
    cases hc : partition_entropy_by data c with
    | error e2 => rw [hc] at h; cases h
    | ok v =>
      rw [hc] at h
      simp only [ok_bind] at h
      cases hf : (rest.foldlM (fun best a => do
          let ka ← partition_entropy_by data a
          pure (if ka < best.2 then (a, ka) else best)) (c, v)) with
      | error e2 => rw [hf] at h; cases h
      | ok r =>
        rw [hf] at h
        simp only [ok_bind, pure_eq_ok] at h
        injection h with h2
        rcases bestAttribute_fold_mem data rest (c, v) r hf with h1 | h1
        · exact h2 ▸ h1 ▸ List.mem_cons_self _ _
        · exact h2 ▸ List.mem_cons_of_mem _ h1

/-- Removing a present element with filter strictly shrinks a list. -/
lemma filter_ne_length_lt :
    ∀ (l : List String) (b : String), b ∈ l →
      (l.filter (fun a => a != b)).length < l.length := by
  intro l
  induction l with
  | nil => intro b hb; cases hb
  | cons a l ih =>
    intro b hb
    rw [List.filter_cons]
    by_cases hab : (a != b) = true
    · have hbl : b ∈ l := by
        rcases List.mem_cons.mp hb with rfl | h2
        · simp at hab
        · exact h2
      rw [if_pos hab]
      simpa using ih b hbl
    · rw [if_neg hab]
      simp only [List.length_cons]
      exact Nat.lt_succ_of_le (List.length_filter_le _ _)

/-- A failing mapExcept fails on one of its items. -/
lemma mapExcept_error {α β : Type} (f : α → Except PyErr β) :
    ∀ (l : List α) (e : PyErr), mapExcept f l = .error e →
      ∃ x ∈ l, f x = .error e := by
  intro l
  induction l with
  | nil => intro e h; cases h
  | cons a l ih =>
    intro e h
    unfold mapExcept at h
    cases hk : f a with
    | error e2 =>
      rw [hk] at h
      injection h with h2
      exact ⟨a, List.mem_cons_self _ _, by rw [hk, h2]⟩
    | ok y =>
      rw [hk] at h
      cases hm : mapExcept f l with
      | error e2 =>
        rw [hm] at h
        injection h with h2
        obtain ⟨x, hx, he⟩ := ih e2 hm
        exact ⟨x, List.mem_cons_of_mem _ hx, by rw [he, h2]⟩
      | ok ys => rw [hm] at h; cases h

/-- The fuel of the embedding is invisible: with fuel exceeding the number
of candidate attributes (as build_tree_id3 always supplies), buildFuel
never reports the out-of-fuel marker, because every recursive call removes
the chosen attribute from the candidates. -/
lemma buildFuel_no_fuel_error : ∀ (n : Nat) (cands : List String)
    (data : List LabeledExample), cands.length < n →
    buildFuel n cands data ≠ .error .recursionError := by
  intro n
  induction n with
  | zero => intro cands data hlt; omega
  | succ n ih =>
    intro cands data hlt h
    unfold buildFuel at h
    split at h
    · cases h
    split at h
    · cases h
    split at h
    · cases h
    split at h
    · rename_i e heq
      injection h with h2
      rcases bestAttribute_error heq with h3 | h3 <;> rw [h2] at h3 <;>
        cases h3
    rename_i best heq
    split at h
    · rename_i e heq2
      injection h with h2
      have h3 := partition_by_error heq2
      rw [h2] at h3
      cases h3
    rename_i partitions heq2
    split at h
    · rename_i e heq3
      injection h with h2
      obtain ⟨p, _, hpe⟩ := mapExcept_error _ partitions e heq3
      cases hbq : buildFuel n (cands.filter (fun a => a != best)) p.2 with
      | error e2 =>
        rw [hbq] at hpe
        simp only [map_error] at hpe
        injection hpe with h4
        have hlen : (cands.filter (fun a => a != best)).length < n := by
          have := filter_ne_length_lt cands best (bestAttribute_mem heq)
          omega
        exact ih _ p.2 hlen (by rw [hbq, h4, h2])
      | ok tq => rw [hbq] at hpe; simp only [map_ok] at hpe; cases hpe
    cases h

/-- build_tree_id3 never reports the fuel marker: its behavior matches the
Python recursion on every input. -/
lemma build_tree_id3_no_fuel_error (data : List LabeledExample)
    (sc : Option (List String)) :
    build_tree_id3 data sc ≠ .error .recursionError := by
  unfold build_tree_id3
  cases sc with
  | some cands => exact buildFuel_no_fuel_error _ cands data (by omega)
  | none =>
    cases data with
    | nil => intro h; cases h
    | cons a rest =>
      exact buildFuel_no_fuel_error _ (firstKeys (a :: rest)) (a :: rest)
        (by omega)

end DSFS
